import Mathlib

/-!
Verification of the AMPT Monitor Zeek plugin (`ampt_monitor_zeek/plugin.py`).

The development shallowly embeds the two operations of the plugin:

* `_tail_logfile` — polling a growing log file from a cursor, filtering
  lines on the configured signature substring (`pollStep` below), and
* `_parse_log` — matching a filtered line against the regex `RE_SIG_LOG`,
  converting the Zeek timestamp with `datetime.utcfromtimestamp` /
  `isoformat(timespec='seconds')`, and merging the five derived fields
  into the shared `parsed_event` dictionary (`parse_log` below).

Strings are modelled as `List Char` over ASCII: the character classes
`\s`, `\S`, `\d` of Python's `re` and `str.strip`/`str.isspace` are
modelled by their ASCII parts, which is exact for every input considered
in the theorems.
-/

/-- ASCII part of Python's regex class `\s` and of `str.isspace`:
space, tab, newline, carriage return, vertical tab, form feed. -/
def pyIsSpace (c : Char) : Bool :=
  c == ' ' || c == '\t' || c == '\n' || c == '\r' || c == '\x0b' || c == '\x0c'

/-- Python's regex class `\d` restricted to ASCII: the characters 0-9
(code points 48 to 57). -/
def pyIsDigit (c : Char) : Bool :=
  48 ≤ c.toNat && c.toNat ≤ 57

/-- Negation of `pyIsSpace`, the class `\S`. -/
def pyNotSpace (c : Char) : Bool := !pyIsSpace c

/-- One greedy-plus step of the regex: the maximal nonempty run of
characters satisfying `p`, with the rest of the input; `none` when the
run is empty.  (Greedy `p+` followed by a character outside `p` never
backtracks into a shorter run, because every shorter split leaves a
`p`-character where the next token expects a non-`p` one.) -/
def takeRun (p : Char → Bool) (l : List Char) : Option (List Char × List Char) :=
  match l.takeWhile p with
  | [] => none
  | c :: cs => some (c :: cs, l.dropWhile p)

/-- One `\s` of the pattern: consume exactly one whitespace character. -/
def takeSpace : List Char → Option (List Char)
  | c :: rest => if pyIsSpace c then some rest else none
  | [] => none

/-- One literal `\.` of the pattern: consume exactly one dot. -/
def takeDot : List Char → Option (List Char)
  | c :: rest => if c == '.' then some rest else none
  | [] => none

/-- The named groups captured by `RE_SIG_LOG`.  The `ts` group
`\d+\.\d+` is kept as its integer digits and fractional digits; the
full captured text is `tsInt ++ "." ++ tsFrac`. -/
structure SigGroups where
  tsInt : List Char
  tsFrac : List Char
  srcAddr : List Char
  srcPort : List Char
  dstAddr : List Char
  dstPort : List Char
deriving DecidableEq, Repr

/-- `RE_SIG_LOG.match(log)` — the anchored match of

    (?P<ts>\d+\.\d+)\s \S+\s (?P<src_addr>\S+)\s (?P<src_port>\d{1,5})\s
    (?P<dst_addr>\S+)\s (?P<dst_port>\d{1,5})

against the start of the line (verbose-mode whitespace in the pattern is
ignored by `re.X`).  Backtracking never helps this pattern: each `\d+` or
`\S+` is followed by a token its own class excludes (`\.` or `\s`), so a
successful match always takes the maximal run, and `\d{1,5}` before `\s`
succeeds exactly when the maximal digit run has length 1..5; the final
`\d{1,5}` greedily takes up to five digits of the run with no further
condition.  The function below is that deterministic residue. -/
def matchSigLog (l : List Char) : Option SigGroups :=
  (takeRun pyIsDigit l).bind fun ts1 =>
  (takeDot ts1.2).bind fun l2 =>
  (takeRun pyIsDigit l2).bind fun ts2 =>
  (takeSpace ts2.2).bind fun l4 =>
  (takeRun pyNotSpace l4).bind fun sk =>
  (takeSpace sk.2).bind fun l6 =>
  (takeRun pyNotSpace l6).bind fun sa =>
  (takeSpace sa.2).bind fun l8 =>
  (takeRun pyIsDigit l8).bind fun sp =>
  if sp.1.length ≤ 5 then
    (takeSpace sp.2).bind fun l10 =>
    (takeRun pyNotSpace l10).bind fun da =>
    (takeSpace da.2).bind fun l12 =>
    (takeRun pyIsDigit l12).bind fun dp =>
    some ⟨ts1.1, ts2.1, sa.1, sp.1, da.1, dp.1.take 5⟩
  else none

/-- `int()` on a nonempty string of ASCII digits. -/
def natOfDigits (l : List Char) : Nat :=
  l.foldl (fun a c => a * 10 + (c.toNat - 48)) 0

/-- Round `p / q` to the nearest integer, ties to even — the rounding
CPython applies when converting a float timestamp to whole microseconds. -/
def roundHalfEven (p q : Nat) : Nat :=
  let n := p / q
  let r := p % q
  if q < 2 * r then n + 1 else if 2 * r < q then n else n + n % 2

/-- The timestamp `tsInt.tsFrac` (a decimal numeral in seconds) as a
count of microseconds, rounded half-to-even when more than six
fractional digits are present.  This is `float(log['ts'])` followed by
CPython's seconds-to-microseconds conversion inside `utcfromtimestamp`,
computed on the exact decimal value; the double-precision detour of the
real implementation agrees except within one double ulp of a
half-microsecond boundary, which no input below approaches. -/
def decimalToMicros (tsInt tsFrac : List Char) : Nat :=
  let k := tsFrac.length
  let p := natOfDigits tsInt * 10 ^ k + natOfDigits tsFrac
  if k ≤ 6 then p * 10 ^ (6 - k) else roundHalfEven p (10 ^ (k - 6))

/-- The fractional digits alone, as microseconds rounded half-to-even.
Can equal 1000000 (carry into the next second) when seven or more
fractional digits round up. -/
def fracMicros (tsFrac : List Char) : Nat :=
  let k := tsFrac.length
  if k ≤ 6 then natOfDigits tsFrac * 10 ^ (6 - k)
  else roundHalfEven (natOfDigits tsFrac) (10 ^ (k - 6))

/-- Gregorian leap-year test. -/
def isLeap (y : Nat) : Bool :=
  (y % 4 == 0 && y % 100 != 0) || y % 400 == 0

/-- Days in Gregorian year `y`. -/
def daysInYear (y : Nat) : Nat := if isLeap y then 366 else 365

/-- Split a day count (days since Jan 1 of year `y`) into the calendar
year it falls in and the zero-based day of that year, by walking forward
one year at a time.  `fuel` bounds the walk; `utcFromSeconds` supplies
enough fuel that exhaustion can only produce a year beyond 9999, which
it rejects. -/
def yearSplit : Nat → Nat → Nat → Nat × Nat
  | 0, y, d => (y, d)
  | fuel + 1, y, d =>
    if d < daysInYear y then (y, d) else yearSplit fuel (y + 1) (d - daysInYear y)

/-- Month lengths of a (leap or common) Gregorian year. -/
def monthLengths (leap : Bool) : List Nat :=
  [31, if leap then 29 else 28, 31, 30, 31, 30, 31, 31, 30, 31, 30, 31]

/-- Split a zero-based day-of-year into a month number (starting at `m`)
and a one-based day-of-month, against the given month-length table. -/
def monthSplit : List Nat → Nat → Nat → Nat × Nat
  | [], m, d => (m, d + 1)
  | len :: rest, m, d =>
    if d < len then (m, d + 1) else monthSplit rest (m + 1) (d - len)

/-- Fuel for `yearSplit` starting from 1970: any count that terminates
in a year up to 9999 uses at most 8030 steps. -/
def yearFuel : Nat := 10000

/-- A `datetime.datetime` value (always UTC here). -/
structure DateTime where
  year : Nat
  month : Nat
  day : Nat
  hour : Nat
  minute : Nat
  second : Nat
  microsecond : Nat
deriving DecidableEq, Repr

/-- `datetime.utcfromtimestamp` on a whole nonnegative count of seconds:
the proleptic-Gregorian UTC instant, or `none` when the year exceeds
9999 — CPython raises there (`ValueError`/`OverflowError`), uncaught by
`_parse_log`. -/
def utcFromSeconds (s : Nat) : Option DateTime :=
  let days := s / 86400
  let rem := s % 86400
  let ys := yearSplit yearFuel 1970 days
  let ms := monthSplit (monthLengths (isLeap ys.1)) 1 ys.2
  if ys.1 ≤ 9999 then
    some ⟨ys.1, ms.1, ms.2, rem / 3600, rem % 3600 / 60, rem % 60, 0⟩
  else none

/-- `datetime.utcfromtimestamp` on a microsecond count: the whole
seconds give the calendar fields, the remainder the microsecond field. -/
def utcFromMicros (us : Nat) : Option DateTime :=
  (utcFromSeconds (us / 1000000)).map
    (fun dt => { dt with microsecond := us % 1000000 })

/-- Zero-padded two-digit numeral, as `%02d` prints fields below 100
(every field it is applied to is). -/
def pad2 (n : Nat) : List Char :=
  [Nat.digitChar (n / 10 % 10), Nat.digitChar (n % 10)]

/-- Zero-padded four-digit numeral, as `%04d` prints years 0..9999
(the only years `utcFromSeconds` lets through). -/
def pad4 (n : Nat) : List Char :=
  [Nat.digitChar (n / 1000 % 10), Nat.digitChar (n / 100 % 10),
   Nat.digitChar (n / 10 % 10), Nat.digitChar (n % 10)]

/-- `datetime.isoformat(timespec='seconds')`: `YYYY-MM-DDTHH:MM:SS`,
discarding (truncating, never rounding) the microsecond field. -/
def isoformatSeconds (dt : DateTime) : String :=
  ⟨pad4 dt.year ++ '-' :: pad2 dt.month ++ '-' :: pad2 dt.day ++
   'T' :: pad2 dt.hour ++ ':' :: pad2 dt.minute ++ ':' :: pad2 dt.second⟩

/-- A Python value stored in the event dictionary. -/
inductive Value where
  | str : String → Value
  | int : Int → Value
deriving DecidableEq, Repr

/-- The event dictionary `self.parsed_event`, modelled by its lookup
function (key to value). -/
def EventMap : Type := String → Option Value

/-- `d[k] = v` on an event dictionary. -/
def setKey (ev : EventMap) (k : String) (v : Value) : EventMap :=
  fun q => if q = k then some v else ev q

/-- The dictionary keys written by `_parse_log`. -/
def kAlertTime : String := "alert_time"

/-- Key of the source address field. -/
def kSrcAddr : String := "src_addr"

/-- Key of the source port field. -/
def kSrcPort : String := "src_port"

/-- Key of the destination address field. -/
def kDestAddr : String := "dest_addr"

/-- Key of the destination port field. -/
def kDestPort : String := "dest_port"

/-- The five keys `_parse_log` updates. -/
def parsedKeys : List String := [kAlertTime, kSrcAddr, kSrcPort, kDestAddr, kDestPort]

/-- `self.parsed_event.update({...})` with the five derived fields of a
successful regex match and its formatted timestamp. -/
def updateParsed (ev : EventMap) (g : SigGroups) (dt : DateTime) : EventMap :=
  setKey (setKey (setKey (setKey (setKey ev
    kAlertTime (Value.str (isoformatSeconds dt)))
    kSrcAddr (Value.str ⟨g.srcAddr⟩))
    kSrcPort (Value.int (natOfDigits g.srcPort)))
    kDestAddr (Value.str ⟨g.dstAddr⟩))
    kDestPort (Value.int (natOfDigits g.dstPort))

/-- The uncaught exceptions `_parse_log` can raise.
`attributeError` is `'NoneType' object has no attribute 'groupdict'`,
raised when `RE_SIG_LOG.match(log)` returns `None`; the surrounding
`try` only catches `ValueError`, which nothing in its body raises, so
the `except ValueError: return None` branch is dead and the error
escapes.  `dateRangeError` is the `ValueError`/`OverflowError` raised by
`datetime.utcfromtimestamp` outside the `try` block when the timestamp
falls beyond year 9999. -/
inductive PyExc where
  | attributeError : PyExc
  | dateRangeError : PyExc
deriving DecidableEq, Repr

/-- `_parse_log(self, log)` on the current `self.parsed_event` and a
line: an uncaught exception, or the updated shared event dictionary. -/
def parse_log (ev : EventMap) (log : List Char) : Except PyExc EventMap :=
  match matchSigLog log with
  | none => Except.error PyExc.attributeError
  | some g =>
    match utcFromMicros (decimalToMicros g.tsInt g.tsFrac) with
    | none => Except.error PyExc.dateRangeError
    | some dt => Except.ok (updateParsed ev g dt)

/-- Look a key up in the result of `parse_log`, `none` on an exception —
lets concrete theorems state field values decidably. -/
def lookupOk (r : Except PyExc EventMap) (k : String) : Option Value :=
  match r with
  | Except.ok ev => ev k
  | Except.error _ => none

/-- `readlines()` from a byte offset: split the unread suffix into
lines, each keeping its trailing newline (a last unterminated line is
returned as is). -/
def splitLinesAux : List Char → List Char → List (List Char)
  | [], acc => if acc.isEmpty then [] else [acc.reverse]
  | c :: rest, acc =>
    if c == '\n' then (acc.reverse ++ ['\n']) :: splitLinesAux rest []
    else splitLinesAux rest (c :: acc)

/-- Lines of a character stream, newline-terminated pieces kept whole. -/
def splitLines (l : List Char) : List (List Char) := splitLinesAux l []

/-- Python's substring operator `sig in line`. -/
def leadEq : List Char → List Char → Bool
  | [], _ => true
  | _ :: _, [] => false
  | a :: s, b :: l => a == b && leadEq s l

/-- `sig in line`: `sig` occurs contiguously in `line` (case-sensitive). -/
def containsSub (sig : List Char) : List Char → Bool
  | [] => leadEq sig []
  | c :: rest => leadEq sig (c :: rest) || containsSub sig rest

/-- Python `str.strip()`: drop whitespace from both ends. -/
def pyStrip (l : List Char) : List Char :=
  ((l.dropWhile pyIsSpace).reverse.dropWhile pyIsSpace).reverse

/-- The lines `readlines()` returns on one poll: the file content past
the (truncation-clamped) cursor, split into lines. -/
def pollLines (file : List Char) (pos : Nat) : List (List Char) :=
  splitLines (file.drop (min pos file.length))

/-- The lines of one poll that pass the `sig_name` substring pre-filter
and are handed (stripped) to the parser. -/
def keptLines (sig file : List Char) (pos : Nat) : List (List Char) :=
  (pollLines file pos).filter (fun l => containsSub sig l)

/-- Result of one iteration of the `while True` body of `_tail_logfile`. -/
structure PollResult where
  pos : Nat
  yielded : List (List Char)
  warned : Bool
deriving DecidableEq, Repr

/-- One poll of `_tail_logfile` against a fixed file content: measure
`eof`, clamp the cursor back to `eof` on truncation (with a warning),
read the remaining lines, advance the cursor to the end, and yield the
stripped lines that contain the signature. -/
def pollStep (sig file : List Char) (pos : Nat) : PollResult :=
  let eof := file.length
  { pos := eof
    yielded := (keptLines sig file pos).map pyStrip
    warned := eof < pos }

/-- The mutable state of the plugin relevant to `_parse_log`: a heap of
dictionary objects addressed by reference, and `self.parsed_event`, the
reference to the single shared event dictionary allocated by the base
class. -/
structure PluginState where
  heap : Nat → EventMap
  parsedRef : Nat

/-- `_parse_log` as it acts on the plugin state: on success it mutates
the dictionary object behind `self.parsed_event` in place and returns
that same reference (`return self.parsed_event`). -/
def parseLogSt (st : PluginState) (log : List Char) :
    Except PyExc (Nat × PluginState) :=
  match parse_log (st.heap st.parsedRef) log with
  | Except.error e => Except.error e
  | Except.ok ev =>
    Except.ok (st.parsedRef,
      { st with heap := fun r => if r = st.parsedRef then ev else st.heap r })

/-- Modelled from the spec: the alert time the spec attributes to a
timestamp with whole-second part `n` — format the floor of the
timestamp, fractional seconds simply truncated away. -/
def specAlertTimeFloor (n : Nat) : Option String :=
  (utcFromSeconds n).map isoformatSeconds

/-- Modelled from the spec: a RawLine per the spec's words — the file
line with its trailing newline stripped and nothing else altered. -/
def stripTrailingNewline (l : List Char) : List Char :=
  match l.reverse with
  | c :: rest => if c == '\n' then rest.reverse else l
  | [] => l

/-- A valid ISO-8601 combined date-time at exactly second precision:
the rendering `YYYY-MM-DDTHH:MM:SS` of some calendar instant whose
fields are in range. -/
def IsValidIso8601Seconds (s : String) : Prop :=
  ∃ dt : DateTime, s = isoformatSeconds dt ∧
    dt.year ≤ 9999 ∧
    1 ≤ dt.month ∧ dt.month ≤ 12 ∧
    1 ≤ dt.day ∧ dt.day ≤ 31 ∧
    dt.hour ≤ 23 ∧ dt.minute ≤ 59 ∧ dt.second ≤ 59

/-- The empty event dictionary. -/
def evEmpty : EventMap := fun _ => none

/-- A configured signature name for concrete scenarios. -/
def sigAmpt : String := "AMPT-2000"

/-- A line that contains the signature but does not match `RE_SIG_LOG`. -/
def cLineC1 : String := "AMPT-2000 garbage line"

/-- A matching line whose ports are 0 and 99999. -/
def cLinePorts : String := "1.5 x 10.0.0.1 0 10.0.0.2 99999"

/-- A matching line whose fractional seconds round up to a whole second. -/
def cLineCarry : String := "0.9999999 x 10.0.0.1 1 10.0.0.2 2"

/-- The signature configured in the concrete two-line scenario. -/
def sigAlert : String := "alert"

/-- First line of the concrete scenario (contains the signature). -/
def cLineScenario : String := "1700000000.5 alert 10.0.0.1 443 10.0.0.2 51000 extra"

/-- Second line of the concrete scenario (no signature). -/
def cLineOther : String := "garbage no signature here"

/-- The file content after it grows by the two scenario lines. -/
def cFileScenario : String := cLineScenario ++ "\n" ++ cLineOther ++ "\n"

/-- Expected alert time of the scenario line. -/
def cIsoScenario : String := "2023-11-14T22:13:20"

/-- Epoch second 1, formatted. -/
def cIsoSecond1 : String := "1970-01-01T00:00:01"

/-- Epoch second 0, formatted. -/
def cIsoSecond0 : String := "1970-01-01T00:00:00"

/-- A file consisting of one line with leading whitespace. -/
def cFileLead : String := " alert x\n"

/-- `str.strip()` of the leading-whitespace line. -/
def cStripLead : String := "alert x"

/-- The leading-whitespace line with only its trailing newline removed. -/
def cLeadNoNl : String := " alert x"

/-- Key a collaborator-supplied default sits under in the template. -/
def kProtocol : String := "protocol"

/-- A collaborator-supplied template: a protocol default and nothing else. -/
def evTemplate : EventMap :=
  fun q => if q = kProtocol then some (Value.str "udp") else none

/-- The event dictionary produced by parsing the scenario line into the
empty template (used to discharge hypotheses of witnesses concretely). -/
def evScenario : EventMap :=
  match parse_log evEmpty cLineScenario.data with
  | Except.ok e => e
  | Except.error _ => evEmpty

/-- The event dictionary produced by parsing the scenario line into the
protocol-bearing template. -/
def evScenarioT : EventMap :=
  match parse_log evTemplate cLineScenario.data with
  | Except.ok e => e
  | Except.error _ => evEmpty

/-- An initial plugin state: every reference holds the empty dictionary,
`self.parsed_event` is reference 0. -/
def st0 : PluginState := ⟨fun _ => evEmpty, 0⟩

/-- `st0` after parsing the scenario line. -/
def st1 : PluginState :=
  ⟨fun r => if r = 0 then evScenario else st0.heap r, 0⟩

/-- The shared dictionary of `st1` after further parsing `cLinePorts`. -/
def evPorts2 : EventMap :=
  match parse_log evScenario cLinePorts.data with
  | Except.ok e => e
  | Except.error _ => evEmpty

/-- `st1` after parsing `cLinePorts` as the second line. -/
def st2 : PluginState :=
  ⟨fun r => if r = 0 then evPorts2 else st1.heap r, 0⟩

/-- A two-character file content for small witnesses. -/
def cAB : String := "ab"

/-- Source address of the scenario line. -/
def cSrcScenario : String := "10.0.0.1"

/-- Destination address of the scenario line. -/
def cDstScenario : String := "10.0.0.2"

/-- The groups captured from the scenario line. -/
def gScenario : SigGroups :=
  (matchSigLog cLineScenario.data).getD ⟨[], [], [], [], [], []⟩

/-- The groups captured from the carry line. -/
def gCarry : SigGroups :=
  (matchSigLog cLineCarry.data).getD ⟨[], [], [], [], [], []⟩

/-- The event dictionary produced by parsing the carry line into the
empty template. -/
def evCarry : EventMap :=
  match parse_log evEmpty cLineCarry.data with
  | Except.ok e => e
  | Except.error _ => evEmpty

/-- A successful `takeRun` returns a nonempty run of `p`-characters. -/
theorem takeRun_eq_some {p : Char → Bool} {l r rest : List Char}
    (h : takeRun p l = some (r, rest)) :
    r ≠ [] ∧ ∀ c ∈ r, p c = true := by
  unfold takeRun at h
  cases htw : l.takeWhile p with
  | nil => rw [htw] at h; exact absurd h (by simp)
  | cons c cs =>
    rw [htw] at h
    simp only [Option.some.injEq, Prod.mk.injEq] at h
    refine ⟨by simp [← h.1], ?_⟩
    intro x hx
    rw [← h.1] at hx
    exact List.mem_takeWhile_imp (htw ▸ hx)

/-- A digit character decodes to a value at most 9. -/
theorem digit_val_le {c : Char} (h : pyIsDigit c = true) : c.toNat - 48 ≤ 9 := by
  unfold pyIsDigit at h
  simp only [Bool.and_eq_true, decide_eq_true_eq] at h
  omega

/-- `natOfDigits` of a digit string is below `10 ^ length`. -/
theorem foldl_digits_lt (l : List Char) :
    ∀ a : Nat, (∀ c ∈ l, pyIsDigit c = true) →
      l.foldl (fun a c => a * 10 + (c.toNat - 48)) a < (a + 1) * 10 ^ l.length := by
  induction l with
  | nil => intro a _; simp
  | cons c cs ih =>
    intro a h
    have hv : c.toNat - 48 ≤ 9 := digit_val_le (h c (List.mem_cons_self c cs))
    have hcs : ∀ x ∈ cs, pyIsDigit x = true := fun x hx => h x (List.mem_cons_of_mem c hx)
    calc List.foldl (fun a c => a * 10 + (c.toNat - 48)) a (c :: cs)
        = List.foldl (fun a c => a * 10 + (c.toNat - 48)) (a * 10 + (c.toNat - 48)) cs := by
          simp [List.foldl_cons]
      _ < (a * 10 + (c.toNat - 48) + 1) * 10 ^ cs.length := ih _ hcs
      _ ≤ ((a + 1) * 10) * 10 ^ cs.length := Nat.mul_le_mul_right _ (by omega)
      _ = (a + 1) * 10 ^ (c :: cs).length := by
          rw [List.length_cons, pow_succ]; ring

/-- `natOfDigits` of a digit string is below `10 ^ length`. -/
theorem natOfDigits_lt {l : List Char} (h : ∀ c ∈ l, pyIsDigit c = true) :
    natOfDigits l < 10 ^ l.length := by
  have := foldl_digits_lt l 0 h
  simpa [natOfDigits] using this

/-- Inversion of a successful `RE_SIG_LOG` match: the four numeric
groups are nonempty digit strings, the two port groups at most five
digits long. -/
theorem matchSigLog_some {l : List Char} {g : SigGroups} (h : matchSigLog l = some g) :
    (g.tsInt ≠ [] ∧ ∀ c ∈ g.tsInt, pyIsDigit c = true) ∧
    (g.tsFrac ≠ [] ∧ ∀ c ∈ g.tsFrac, pyIsDigit c = true) ∧
    (g.srcPort ≠ [] ∧ g.srcPort.length ≤ 5 ∧ ∀ c ∈ g.srcPort, pyIsDigit c = true) ∧
    (g.dstPort ≠ [] ∧ g.dstPort.length ≤ 5 ∧ ∀ c ∈ g.dstPort, pyIsDigit c = true) := by
  unfold matchSigLog at h
  simp only [Option.bind_eq_some] at h
  obtain ⟨ts1, hts1, h⟩ := h
  obtain ⟨l2, -, h⟩ := h
  obtain ⟨ts2, hts2, h⟩ := h
  obtain ⟨l4, -, h⟩ := h
  obtain ⟨sk, -, h⟩ := h
  obtain ⟨l6, -, h⟩ := h
  obtain ⟨sa, -, h⟩ := h
  obtain ⟨l8, -, h⟩ := h
  obtain ⟨sp, hsp, h⟩ := h
  split at h
  case isFalse => exact absurd h (by simp)
  case isTrue hlen =>
    simp only [Option.bind_eq_some] at h
    obtain ⟨l10, -, h⟩ := h
    obtain ⟨da, -, h⟩ := h
    obtain ⟨l12, -, h⟩ := h
    obtain ⟨dp, hdp, h⟩ := h
    simp only [Option.some.injEq] at h
    subst h
    have h1 := takeRun_eq_some hts1
    have h2 := takeRun_eq_some hts2
    have h3 := takeRun_eq_some hsp
    have h4 := takeRun_eq_some hdp
    refine ⟨⟨h1.1, h1.2⟩, ⟨h2.1, h2.2⟩, ⟨h3.1, hlen, h3.2⟩, ?_, ?_, ?_⟩
    · cases hdp1 : dp.1 with
      | nil => exact absurd hdp1 h4.1
      | cons x xs => simp [hdp1]
    · simp [List.length_take]
    · intro c hc
      exact h4.2 c (List.take_subset 5 dp.1 hc)

/-- With enough fuel behind the final year, `yearSplit` terminated by
finding the day inside its year, so the residual day count is a valid
zero-based day of that year. -/
theorem yearSplit_snd_lt : ∀ (fuel y0 d Y : Nat),
    (yearSplit fuel y0 d).1 ≤ Y → Y < y0 + fuel →
    (yearSplit fuel y0 d).2 < daysInYear (yearSplit fuel y0 d).1 := by
  intro fuel
  induction fuel with
  | zero =>
    intro y0 d Y hY hf
    simp only [yearSplit] at hY
    omega
  | succ n ih =>
    intro y0 d Y hY hf
    by_cases h : d < daysInYear y0
    · simp [yearSplit, h]
    · have hrw : yearSplit (n + 1) y0 d = yearSplit n (y0 + 1) (d - daysInYear y0) := by
        simp [yearSplit, h]
      rw [hrw] at hY ⊢
      exact ih (y0 + 1) _ Y hY (by omega)

set_option maxRecDepth 4000 in
/-- Walking the month table from any valid day-of-year lands on a month
1..12 and a day 1..31. -/
theorem monthSplit_bounds : ∀ leap : Bool, ∀ d : Nat, d < (if leap then 366 else 365) →
    1 ≤ (monthSplit (monthLengths leap) 1 d).1 ∧
    (monthSplit (monthLengths leap) 1 d).1 ≤ 12 ∧
    1 ≤ (monthSplit (monthLengths leap) 1 d).2 ∧
    (monthSplit (monthLengths leap) 1 d).2 ≤ 31 := by decide

/-- Every datetime `utcFromSeconds` lets through has its calendar and
clock fields in range. -/
theorem utcFromSeconds_bounds {s : Nat} {dt : DateTime} (h : utcFromSeconds s = some dt) :
    dt.year ≤ 9999 ∧ 1 ≤ dt.month ∧ dt.month ≤ 12 ∧ 1 ≤ dt.day ∧ dt.day ≤ 31 ∧
    dt.hour ≤ 23 ∧ dt.minute ≤ 59 ∧ dt.second ≤ 59 := by
  simp only [utcFromSeconds] at h
  split at h
  case isFalse => exact absurd h (by simp)
  case isTrue hle =>
    have hdoy := yearSplit_snd_lt yearFuel 1970 (s / 86400) 9999 hle
      (by simp [yearFuel])
    have hdoy2 : (yearSplit yearFuel 1970 (s / 86400)).2 <
        (if isLeap ((yearSplit yearFuel 1970 (s / 86400)).1) then 366 else 365) := by
      simpa [daysInYear] using hdoy
    have hm := monthSplit_bounds (isLeap ((yearSplit yearFuel 1970 (s / 86400)).1)) _ hdoy2
    simp only [Option.some.injEq] at h
    subst h
    refine ⟨hle, hm.1, hm.2.1, hm.2.2.1, hm.2.2.2, ?_, ?_, ?_⟩ <;> simp <;> omega

/-- Half-even rounding never exceeds the quotient by more than one. -/
theorem roundHalfEven_le (p q : Nat) : roundHalfEven p q ≤ p / q + 1 := by
  simp only [roundHalfEven]
  split_ifs <;> omega

/-- Half-even rounding distributes over adding an even multiple of the
denominator. -/
theorem roundHalfEven_add_mul (m p q : Nat) (hq : 0 < q) (hm : m % 2 = 0) :
    roundHalfEven (m * q + p) q = m + roundHalfEven p q := by
  simp only [roundHalfEven]
  have h1 : (m * q + p) / q = m + p / q := by
    rw [Nat.add_comm (m * q) p, Nat.mul_comm m q, Nat.add_mul_div_left p m hq]
    omega
  have h2 : (m * q + p) % q = p % q := by
    rw [Nat.add_comm (m * q) p, Nat.mul_comm m q, Nat.add_mul_mod_self_left]
  rw [h1, h2]
  split_ifs <;> omega

/-- The microsecond count of `tsInt.tsFrac` splits into whole-second
microseconds and the rounded fractional microseconds: the integer digits
contribute exactly, only the fraction is subject to rounding. -/
theorem decimalToMicros_split (tsInt tsFrac : List Char) :
    decimalToMicros tsInt tsFrac = natOfDigits tsInt * 1000000 + fracMicros tsFrac := by
  unfold decimalToMicros fracMicros
  by_cases hk : tsFrac.length ≤ 6
  · simp only [hk, if_true]
    have hp : (10 : Nat) ^ tsFrac.length * 10 ^ (6 - tsFrac.length) = 10 ^ 6 := by
      rw [← pow_add]
      congr 1
      omega
    calc (natOfDigits tsInt * 10 ^ tsFrac.length + natOfDigits tsFrac) * 10 ^ (6 - tsFrac.length)
        = natOfDigits tsInt * (10 ^ tsFrac.length * 10 ^ (6 - tsFrac.length)) +
          natOfDigits tsFrac * 10 ^ (6 - tsFrac.length) := by ring
      _ = natOfDigits tsInt * 1000000 + natOfDigits tsFrac * 10 ^ (6 - tsFrac.length) := by
          rw [hp]; norm_num
  · simp only [hk, if_false]
    have hq : 0 < (10 : Nat) ^ (tsFrac.length - 6) := Nat.pos_pow_of_pos _ (by norm_num)
    have hsplit : natOfDigits tsInt * 10 ^ tsFrac.length =
        (natOfDigits tsInt * 1000000) * 10 ^ (tsFrac.length - 6) := by
      rw [Nat.mul_assoc]
      congr 1
      rw [show (1000000 : Nat) = 10 ^ 6 from by norm_num, ← pow_add]
      congr 1
      omega
    rw [hsplit, roundHalfEven_add_mul _ _ _ hq (by omega)]

/-- The rounded fractional microseconds never exceed one full second. -/
theorem fracMicros_le (tsFrac : List Char)
    (hd : ∀ c ∈ tsFrac, pyIsDigit c = true) : fracMicros tsFrac ≤ 1000000 := by
  have hlt := natOfDigits_lt hd
  unfold fracMicros
  by_cases hk : tsFrac.length ≤ 6
  · simp only [hk, if_true]
    have : natOfDigits tsFrac * 10 ^ (6 - tsFrac.length) <
        10 ^ tsFrac.length * 10 ^ (6 - tsFrac.length) :=
      (Nat.mul_lt_mul_right (Nat.pos_pow_of_pos _ (by norm_num))).mpr hlt
    have hp : (10 : Nat) ^ tsFrac.length * 10 ^ (6 - tsFrac.length) = 1000000 := by
      rw [← pow_add, show tsFrac.length + (6 - tsFrac.length) = 6 from by omega]
      norm_num
    omega
  · simp only [hk, if_false]
    have h1 := roundHalfEven_le (natOfDigits tsFrac) (10 ^ (tsFrac.length - 6))
    have h2 : natOfDigits tsFrac / 10 ^ (tsFrac.length - 6) < 1000000 := by
      rw [Nat.div_lt_iff_lt_mul (Nat.pos_pow_of_pos _ (by norm_num))]
      calc natOfDigits tsFrac < 10 ^ tsFrac.length := hlt
        _ = 1000000 * 10 ^ (tsFrac.length - 6) := by
            rw [show (1000000 : Nat) = 10 ^ 6 from by norm_num, ← pow_add]
            congr 1
            omega
    omega

/-- Looking up a different key passes through `setKey`. -/
theorem setKey_ne (ev : EventMap) (k : String) (v : Value) (q : String)
    (h : q ≠ k) : setKey ev k v q = ev q := by
  simp [setKey, h]

/-- Looking up the written key hits the new value. -/
theorem setKey_eq (ev : EventMap) (k : String) (v : Value) : setKey ev k v k = some v := by
  simp [setKey]

/-- The five keys after `updateParsed` hold the derived field values. -/
theorem updateParsed_fields (ev : EventMap) (g : SigGroups) (dt : DateTime) :
    updateParsed ev g dt kAlertTime = some (Value.str (isoformatSeconds dt)) ∧
    updateParsed ev g dt kSrcAddr = some (Value.str ⟨g.srcAddr⟩) ∧
    updateParsed ev g dt kSrcPort = some (Value.int (natOfDigits g.srcPort)) ∧
    updateParsed ev g dt kDestAddr = some (Value.str ⟨g.dstAddr⟩) ∧
    updateParsed ev g dt kDestPort = some (Value.int (natOfDigits g.dstPort)) := by
  unfold updateParsed
  refine ⟨?_, ?_, ?_, ?_, ?_⟩ <;>
    simp [setKey, kAlertTime, kSrcAddr, kSrcPort, kDestAddr, kDestPort]

/-- Keys outside the five derived ones are untouched by `updateParsed`. -/
theorem updateParsed_frame (ev : EventMap) (g : SigGroups) (dt : DateTime)
    (q : String) (h : ¬ q ∈ parsedKeys) : updateParsed ev g dt q = ev q := by
  simp only [parsedKeys, List.mem_cons, List.not_mem_nil, or_false] at h
  push_neg at h
  unfold updateParsed
  rw [setKey_ne _ _ _ _ h.2.2.2.2, setKey_ne _ _ _ _ h.2.2.2.1,
    setKey_ne _ _ _ _ h.2.2.1, setKey_ne _ _ _ _ h.2.1, setKey_ne _ _ _ _ h.1]

/-- Inversion of a successful `parse_log`: the line matched, the
timestamp was in range, and the result is the updated dictionary. -/
theorem parse_log_ok {ev : EventMap} {log : List Char} {e : EventMap}
    (h : parse_log ev log = Except.ok e) :
    ∃ g dt, matchSigLog log = some g ∧
      utcFromMicros (decimalToMicros g.tsInt g.tsFrac) = some dt ∧
      e = updateParsed ev g dt := by
  unfold parse_log at h
  cases hm : matchSigLog log with
  | none => simp only [hm] at h; exact absurd h (by simp)
  | some g =>
    simp only [hm] at h
    cases hdt : utcFromMicros (decimalToMicros g.tsInt g.tsFrac) with
    | none => simp only [hdt] at h; exact absurd h (by simp)
    | some dt =>
      simp only [hdt, Except.ok.injEq] at h
      exact ⟨g, dt, rfl, hdt, h.symm⟩

/-- The second-precision rendering ignores the microsecond field. -/
theorem isoformatSeconds_set_micro (dt : DateTime) (u : Nat) :
    isoformatSeconds { dt with microsecond := u } = isoformatSeconds dt := by
  cases dt
  rfl

/-- Field bounds carry over from seconds to microsecond conversion. -/
theorem utcFromMicros_bounds {us : Nat} {dt : DateTime}
    (h : utcFromMicros us = some dt) :
    dt.year ≤ 9999 ∧ 1 ≤ dt.month ∧ dt.month ≤ 12 ∧ 1 ≤ dt.day ∧ dt.day ≤ 31 ∧
    dt.hour ≤ 23 ∧ dt.minute ≤ 59 ∧ dt.second ≤ 59 := by
  unfold utcFromMicros at h
  cases h0 : utcFromSeconds (us / 1000000) with
  | none => rw [h0] at h; exact absurd h (by simp)
  | some dt0 =>
    rw [h0] at h
    simp only [Option.map_some', Option.some.injEq] at h
    have := utcFromSeconds_bounds h0
    rw [← h]
    simpa using this

/-- C1: a line that passes the signature substring filter but does not
match `RE_SIG_LOG` makes `_parse_log` raise an uncaught
`AttributeError` (from `None.groupdict()`), terminating the run loop —
it does not return the `None` parse-failure value the spec requires,
because the `except` clause only catches `ValueError`. -/
theorem ampt_c1_malformed_line_raises :
    containsSub sigAmpt.data cLineC1.data = true ∧
    parse_log evEmpty cLineC1.data = Except.error PyExc.attributeError :=
  ⟨by decide, rfl⟩

/-- C3: when the observed end of file is strictly before the cursor
(truncation/rotation), the poll resets the cursor to the end of file,
yields nothing, and raises the warning flag; the poll is a total
function, so no exception escapes and polling continues. -/
theorem ampt_c3_truncation_resets (sig file : List Char) (pos : Nat)
    (h : file.length < pos) :
    (pollStep sig file pos).pos = file.length ∧
    (pollStep sig file pos).yielded = [] ∧
    (pollStep sig file pos).warned = true := by
  refine ⟨rfl, ?_, by simp [pollStep, h]⟩
  have hmin : min pos file.length = file.length := by omega
  simp [pollStep, keptLines, pollLines, hmin, List.drop_length, splitLines, splitLinesAux]

/-- C3 witness: a five-byte cursor over a two-byte file. -/
theorem ampt_c3_witness :
    (pollStep [] cAB.data 5).pos = cAB.data.length ∧
    (pollStep [] cAB.data 5).yielded = [] ∧
    (pollStep [] cAB.data 5).warned = true :=
  ampt_c3_truncation_resets [] cAB.data 5 (by decide)

/-- C6: a poll yields exactly the stripped kept lines, and a line read
on the poll is kept if and only if it contains the configured signature
as an exact substring; all other lines are discarded before parsing. -/
theorem ampt_c6_signature_filter (sig file : List Char) (pos : Nat) :
    (pollStep sig file pos).yielded = (keptLines sig file pos).map pyStrip ∧
    ∀ l ∈ pollLines file pos,
      (l ∈ keptLines sig file pos ↔ containsSub sig l = true) := by
  refine ⟨rfl, ?_⟩
  intro l hl
  constructor
  · intro hk
    exact (List.mem_filter.mp hk).2
  · intro hc
    exact List.mem_filter.mpr ⟨hl, hc⟩

/-- C6 witness: the single line of the leading-whitespace file is kept
precisely because it contains the signature. -/
theorem ampt_c6_witness :
    cFileLead.data ∈ keptLines sigAlert.data cFileLead.data 0 ↔
      containsSub sigAlert.data cFileLead.data = true :=
  (ampt_c6_signature_filter sigAlert.data cFileLead.data 0).2 cFileLead.data (by decide)

/-- C7: with the cursor at end of file (where every poll leaves it),
polling yields nothing and keeps the cursor unchanged, and so does
polling again. -/
theorem ampt_c7_poll_idempotent (sig file : List Char) (pos : Nat)
    (h : pos = file.length) :
    (pollStep sig file pos).yielded = [] ∧
    (pollStep sig file pos).pos = pos ∧
    (pollStep sig file (pollStep sig file pos).pos).yielded = [] ∧
    (pollStep sig file (pollStep sig file pos).pos).pos = pos := by
  subst h
  have hy : (pollStep sig file file.length).yielded = [] := by
    simp [pollStep, keptLines, pollLines, List.drop_length, splitLines, splitLinesAux]
  exact ⟨hy, rfl, hy, rfl⟩

/-- C7 witness: two polls of an unchanged two-byte file. -/
theorem ampt_c7_witness :
    (pollStep [] cAB.data 2).yielded = [] ∧
    (pollStep [] cAB.data 2).pos = 2 ∧
    (pollStep [] cAB.data (pollStep [] cAB.data 2).pos).yielded = [] ∧
    (pollStep [] cAB.data (pollStep [] cAB.data 2).pos).pos = 2 :=
  ampt_c7_poll_idempotent [] cAB.data 2 (by decide)

/-- C2 counterexample: the line `1.5 x 10.0.0.1 0 10.0.0.2 99999`
matches the extraction pattern, yet its source port parses to 0 and its
destination port to 99999 — the claimed range [1, 65535] fails on both
ends, because `\d{1,5}` checks digit count, not port value. -/
theorem ampt_c2_port_range_cex :
    lookupOk (parse_log evEmpty cLinePorts.data) kSrcPort = some (Value.int 0) ∧
    lookupOk (parse_log evEmpty cLinePorts.data) kDestPort = some (Value.int 99999) ∧
    ¬ (1 ≤ (0 : Int) ∧ (99999 : Int) ≤ 65535) := by
  refine ⟨by decide, by decide, by decide⟩

/-- C2 as amended: for every line on which `_parse_log` succeeds, the
two ports are integers in [0, 99999] (any 1-5 digit numeral), and the
alert time is a valid ISO-8601 date-time of exactly second precision. -/
theorem ampt_c2_fields_amended (ev : EventMap) (line : List Char) (e : EventMap)
    (h : parse_log ev line = Except.ok e) :
    ∃ (sp dp : Int) (ts : String),
      e kSrcPort = some (Value.int sp) ∧ 0 ≤ sp ∧ sp ≤ 99999 ∧
      e kDestPort = some (Value.int dp) ∧ 0 ≤ dp ∧ dp ≤ 99999 ∧
      e kAlertTime = some (Value.str ts) ∧ IsValidIso8601Seconds ts := by
  obtain ⟨g, dt, hm, hdt, he⟩ := parse_log_ok h
  obtain ⟨-, -, hsp, hdp⟩ := matchSigLog_some hm
  have hf := updateParsed_fields ev g dt
  have hspb : natOfDigits g.srcPort < 100000 := by
    calc natOfDigits g.srcPort < 10 ^ g.srcPort.length := natOfDigits_lt hsp.2.2
      _ ≤ 10 ^ 5 := Nat.pow_le_pow_right (by norm_num) hsp.2.1
      _ = 100000 := by norm_num
  have hdpb : natOfDigits g.dstPort < 100000 := by
    calc natOfDigits g.dstPort < 10 ^ g.dstPort.length := natOfDigits_lt hdp.2.2
      _ ≤ 10 ^ 5 := Nat.pow_le_pow_right (by norm_num) hdp.2.1
      _ = 100000 := by norm_num
  subst he
  refine ⟨natOfDigits g.srcPort, natOfDigits g.dstPort, isoformatSeconds dt,
    hf.2.2.1, by positivity, by exact_mod_cast by omega, hf.2.2.2.2, by positivity,
    by exact_mod_cast by omega, hf.1, dt, rfl, ?_⟩
  have := utcFromMicros_bounds hdt
  exact ⟨this.1, this.2.1, this.2.2.1, this.2.2.2.1, this.2.2.2.2.1,
    this.2.2.2.2.2.1, this.2.2.2.2.2.2.1, this.2.2.2.2.2.2.2⟩

/-- C2 witness: the amended statement at the concrete scenario line. -/
theorem ampt_c2_witness :
    parse_log evEmpty cLineScenario.data = Except.ok evScenario ∧
    ∃ (sp dp : Int) (ts : String),
      evScenario kSrcPort = some (Value.int sp) ∧ 0 ≤ sp ∧ sp ≤ 99999 ∧
      evScenario kDestPort = some (Value.int dp) ∧ 0 ≤ dp ∧ dp ≤ 99999 ∧
      evScenario kAlertTime = some (Value.str ts) ∧ IsValidIso8601Seconds ts :=
  ⟨rfl, ampt_c2_fields_amended evEmpty cLineScenario.data evScenario rfl⟩

/-- C4 counterexample: on `0.9999999 ...` the integer part of the
timestamp is 0, but the stored alert time is `1970-01-01T00:00:01`, not
the `1970-01-01T00:00:00` the floor reading predicts: the conversion
first rounds to whole microseconds, which carries into the next second. -/
theorem ampt_c4_floor_cex :
    (matchSigLog cLineCarry.data).map (fun g => natOfDigits g.tsInt) = some 0 ∧
    lookupOk (parse_log evEmpty cLineCarry.data) kAlertTime =
      some (Value.str cIsoSecond1) ∧
    specAlertTimeFloor 0 = some cIsoSecond0 ∧
    ¬ Value.str cIsoSecond1 = Value.str cIsoSecond0 := by
  refine ⟨by decide, by decide, by decide, by decide⟩

/-- C4 as amended: the timestamp is first rounded to whole microseconds
(ties to even); the formatted alert time is the truncated rendering of
the floor of that rounded value — which is the floor of the timestamp
whenever the rounded fraction stays below one second, and one second
more when the fraction rounds up to a full second. -/
theorem ampt_c4_alert_time_rounding (ev : EventMap) (line : List Char)
    (g : SigGroups) (e : EventMap)
    (hm : matchSigLog line = some g)
    (h : parse_log ev line = Except.ok e) :
    (fracMicros g.tsFrac < 1000000 →
      e kAlertTime = (specAlertTimeFloor (natOfDigits g.tsInt)).map Value.str) ∧
    (fracMicros g.tsFrac = 1000000 →
      e kAlertTime = (specAlertTimeFloor (natOfDigits g.tsInt + 1)).map Value.str) := by
  obtain ⟨g2, dt, hm2, hdt, he⟩ := parse_log_ok h
  rw [hm] at hm2
  injection hm2 with hg
  subst hg
  have hsplit := decimalToMicros_split g.tsInt g.tsFrac
  subst he
  have halert := (updateParsed_fields ev g dt).1
  unfold utcFromMicros at hdt
  cases h0 : utcFromSeconds (decimalToMicros g.tsInt g.tsFrac / 1000000) with
  | none => rw [h0] at hdt; exact absurd hdt (by simp)
  | some dt0 =>
    rw [h0] at hdt
    simp only [Option.map_some', Option.some.injEq] at hdt
    have hiso : isoformatSeconds dt = isoformatSeconds dt0 := by
      rw [← hdt]
      exact isoformatSeconds_set_micro dt0 _
    constructor
    · intro hlt
      have hdiv : decimalToMicros g.tsInt g.tsFrac / 1000000 = natOfDigits g.tsInt := by
        omega
      rw [halert, specAlertTimeFloor, ← hdiv, h0]
      simp [hiso]
    · intro heq
      have hdiv : decimalToMicros g.tsInt g.tsFrac / 1000000 = natOfDigits g.tsInt + 1 := by
        omega
      rw [halert, specAlertTimeFloor, ← hdiv, h0]
      simp [hiso]

/-- C4 witness: the carry line rounds its fraction up to a full second
and its alert time is the rendering of floor plus one. -/
theorem ampt_c4_witness :
    fracMicros gCarry.tsFrac = 1000000 ∧
    evCarry kAlertTime =
      (specAlertTimeFloor (natOfDigits gCarry.tsInt + 1)).map Value.str :=
  ⟨by decide,
    (ampt_c4_alert_time_rounding evEmpty cLineCarry.data gCarry evCarry rfl rfl).2
      (by decide)⟩

/-- C5: growing the file by the scenario's two lines and polling once
yields exactly the first line (the only one containing the signature),
and parsing it produces the five claimed field values. -/
theorem ampt_c5_concrete_scenario :
    (pollStep sigAlert.data cFileScenario.data 0).yielded = [cLineScenario.data] ∧
    lookupOk (parse_log evEmpty cLineScenario.data) kAlertTime =
      some (Value.str cIsoScenario) ∧
    lookupOk (parse_log evEmpty cLineScenario.data) kSrcAddr =
      some (Value.str cSrcScenario) ∧
    lookupOk (parse_log evEmpty cLineScenario.data) kSrcPort =
      some (Value.int 443) ∧
    lookupOk (parse_log evEmpty cLineScenario.data) kDestAddr =
      some (Value.str cDstScenario) ∧
    lookupOk (parse_log evEmpty cLineScenario.data) kDestPort =
      some (Value.int 51000) := by
  refine ⟨by decide, by decide, by decide, by decide, by decide, by decide⟩

/-- C8: a successful parse leaves every key outside the five derived
ones exactly as the collaborator-supplied template had it, and writes
the five derived fields. -/
theorem ampt_c8_update_frame (ev : EventMap) (line : List Char) (e : EventMap)
    (h : parse_log ev line = Except.ok e) :
    (∀ q, ¬ q ∈ parsedKeys → e q = ev q) ∧
    (∃ g, matchSigLog line = some g ∧
      e kSrcAddr = some (Value.str ⟨g.srcAddr⟩) ∧
      e kSrcPort = some (Value.int (natOfDigits g.srcPort)) ∧
      e kDestAddr = some (Value.str ⟨g.dstAddr⟩) ∧
      e kDestPort = some (Value.int (natOfDigits g.dstPort)) ∧
      ∃ ts, e kAlertTime = some (Value.str ts)) := by
  obtain ⟨g, dt, hm, hdt, he⟩ := parse_log_ok h
  subst he
  have hf := updateParsed_fields ev g dt
  exact ⟨fun q hq => updateParsed_frame ev g dt q hq,
    g, hm, hf.2.1, hf.2.2.1, hf.2.2.2.1, hf.2.2.2.2, isoformatSeconds dt, hf.1⟩

/-- C8 witness: the collaborator's protocol default survives a parse of
the scenario line into the protocol-bearing template. -/
theorem ampt_c8_witness : evScenarioT kProtocol = evTemplate kProtocol :=
  (ampt_c8_update_frame evTemplate cLineScenario.data evScenarioT rfl).1
    kProtocol (by decide)

/-- C9 counterexample: the yielded form of `" alert x\n"` is
`"alert x"` — `str.strip()` removes the leading space as well, so the
yielded line is not the original line minus its trailing newline. -/
theorem ampt_c9_strip_cex :
    (pollStep sigAlert.data cFileLead.data 0).yielded = [cStripLead.data] ∧
    stripTrailingNewline cFileLead.data = cLeadNoNl.data ∧
    ¬ cStripLead.data = cLeadNoNl.data := by
  refine ⟨by decide, by decide, by decide⟩

/-- C9 as amended: every yielded line is some read line with leading
and trailing whitespace stripped (Python `str.strip()`), and that
original line contains the configured signature substring. -/
theorem ampt_c9_yield_strip (sig file : List Char) (pos : Nat) (y : List Char)
    (hy : y ∈ (pollStep sig file pos).yielded) :
    ∃ l, l ∈ pollLines file pos ∧ containsSub sig l = true ∧ y = pyStrip l := by
  simp only [pollStep] at hy
  obtain ⟨l, hl, hsl⟩ := List.mem_map.mp hy
  have hf := List.mem_filter.mp hl
  exact ⟨l, hf.1, hf.2, hsl.symm⟩

/-- C9 witness: the amended statement at the leading-whitespace file. -/
theorem ampt_c9_witness :
    ∃ l, l ∈ pollLines cFileLead.data 0 ∧
      containsSub sigAlert.data l = true ∧ cStripLead.data = pyStrip l :=
  ampt_c9_yield_strip sigAlert.data cFileLead.data 0 cStripLead.data (by decide)

/-- C10: `_parse_log` returns the reference to the one shared
`parsed_event` dictionary, both times; after the second successful
parse, reading through the first returned reference shows the second
line's field values — the later parse overwrites what is observable
through the earlier returned object. -/
theorem ampt_c10_shared_event (st : PluginState) (l1 l2 : List Char)
    (r1 r2 : Nat) (s1 s2 : PluginState)
    (h1 : parseLogSt st l1 = Except.ok (r1, s1))
    (h2 : parseLogSt s1 l2 = Except.ok (r2, s2)) :
    r1 = st.parsedRef ∧ r2 = r1 ∧
    ∃ g2, matchSigLog l2 = some g2 ∧
      s2.heap r1 kSrcAddr = some (Value.str ⟨g2.srcAddr⟩) ∧
      s2.heap r1 kSrcPort = some (Value.int (natOfDigits g2.srcPort)) := by
  unfold parseLogSt at h1 h2
  cases hp1 : parse_log (st.heap st.parsedRef) l1 with
  | error ex => simp only [hp1] at h1; exact absurd h1 (by simp)
  | ok ev1 =>
    simp only [hp1, Except.ok.injEq, Prod.mk.injEq] at h1
    obtain ⟨hr1, hs1⟩ := h1
    cases hp2 : parse_log (s1.heap s1.parsedRef) l2 with
    | error ex => simp only [hp2] at h2; exact absurd h2 (by simp)
    | ok ev2 =>
      simp only [hp2, Except.ok.injEq, Prod.mk.injEq] at h2
      obtain ⟨hr2, hs2⟩ := h2
      obtain ⟨g2, dt2, hm2, hdt2, hev2⟩ := parse_log_ok hp2
      have hf := updateParsed_fields (s1.heap s1.parsedRef) g2 dt2
      have hpr : s1.parsedRef = st.parsedRef := by rw [← hs1]
      have hheap : s2.heap r1 = ev2 := by
        rw [← hs2, ← hr1, hpr]
        simp
      refine ⟨hr1.symm, by rw [← hr2, ← hr1, hpr], g2, hm2, ?_, ?_⟩
      · rw [hheap, hev2]
        exact hf.2.1
      · rw [hheap, hev2]
        exact hf.2.2.1

/-- C10 witness: two consecutive parses from the initial state return
reference 0 both times, and the heap behind it then holds the second
line's source fields. -/
theorem ampt_c10_witness :
    (0 : Nat) = st0.parsedRef ∧ (0 : Nat) = (0 : Nat) ∧
    ∃ g2, matchSigLog cLinePorts.data = some g2 ∧
      st2.heap 0 kSrcAddr = some (Value.str ⟨g2.srcAddr⟩) ∧
      st2.heap 0 kSrcPort = some (Value.int (natOfDigits g2.srcPort)) :=
  ampt_c10_shared_event st0 cLineScenario.data cLinePorts.data 0 0 st1 st2 rfl rfl
